import Mathlib

/-!
Verification of the page-content extraction engine: a DOM snapshot
extractor (`extractElement`) and an HTML-to-Markdown renderer
(`htmlToMarkdown`, `getTextContent`, `convertTable`), embedded as pure
functions over an explicit document-tree type.
-/

/-- Viewport geometry as returned by the environment for an element
(`getBoundingClientRect`). Coordinates are modelled as integers. -/
structure Rect where
  x : Int
  y : Int
  width : Int
  height : Int
deriving Repr, DecidableEq

/-- The computed-style facts the engine consults (`getComputedStyle`). -/
structure ComputedStyle where
  display : String
  visibility : String
  opacity : String
deriving Repr, DecidableEq

/-- A document-tree node: either a text node or an element carrying its
tag, attributes, computed style, bounding rectangle and child nodes. -/
inductive DomNode where
  | text (content : String)
  | elem (tag : String) (attrs : List (String × String))
      (style : ComputedStyle) (rect : Rect) (children : List DomNode)
deriving Repr

/-- ASCII lowercasing of a string (`tagName.toLowerCase()`), written over
the character list so that it evaluates by kernel reduction. -/
def lowerStr (s : String) : String := ⟨s.data.map Char.toLower⟩

/-- Whitespace trimming at both ends (`String.prototype.trim`), written
over the character list so that it evaluates by kernel reduction. -/
def jsTrim (s : String) : String :=
  ⟨((s.data.dropWhile Char.isWhitespace).reverse.dropWhile
      Char.isWhitespace).reverse⟩

/-- Whether a document node is an element node (`Node.ELEMENT_NODE`). -/
def isElemNode : DomNode → Bool
  | .text _ => false
  | .elem _ _ _ _ _ => true

/-- The lowercased tag of an element node; text nodes get `""`. -/
def tagOf : DomNode → String
  | .text _ => ""
  | .elem t _ _ _ _ => lowerStr t

/-! ## DOM snapshot extractor -/

/-- Tags the snapshot extractor skips outright. -/
def extractorExcluded : List String :=
  ["script", "style", "noscript", "meta", "link"]

/-- Visibility check `isVisible`: style-visible (display not none, visibility not hidden,
opacity not the string "0") and non-zero rendered area. -/
def isVisible (style : ComputedStyle) (rect : Rect) : Bool :=
  if style.display == "none" || style.visibility == "hidden"
      || style.opacity == "0" then
    false
  else
    decide (rect.width > 0) && decide (rect.height > 0)

/-- Geometry recorded on a visible extracted node. -/
structure BoundingBox where
  x : Int
  y : Int
  width : Int
  height : Int
deriving Repr, DecidableEq

/-- One node of the extractor's output tree. -/
inductive ExtractedNode where
  | mk (tag_name : String) (attributes : List (String × String))
      (text_content : Option String) (children : List ExtractedNode)
      (is_visible : Bool) (is_interactive : Bool)
      (bounding_box : Option BoundingBox)
deriving Repr

def ExtractedNode.tag_name : ExtractedNode → String
  | .mk t _ _ _ _ _ _ => t

def ExtractedNode.attributes : ExtractedNode → List (String × String)
  | .mk _ a _ _ _ _ _ => a

def ExtractedNode.text_content : ExtractedNode → Option String
  | .mk _ _ tc _ _ _ _ => tc

def ExtractedNode.children : ExtractedNode → List ExtractedNode
  | .mk _ _ _ cs _ _ _ => cs

def ExtractedNode.is_visible : ExtractedNode → Bool
  | .mk _ _ _ _ v _ _ => v

def ExtractedNode.bounding_box : ExtractedNode → Option BoundingBox
  | .mk _ _ _ _ _ _ b => b

/-- Direct text content of an element: its text-node children, each
trimmed, empty pieces dropped, joined by single spaces. -/
def directText (children : List DomNode) : String :=
  String.intercalate " "
    ((((children.filterMap fun c =>
        match c with
        | .text s => some s
        | .elem _ _ _ _ _ => none)).map jsTrim).filter
      fun t => t.length > 0)

mutual

/-- The walk `extractElement(element, depth, maxDepth)`: `none` past the depth
limit or on excluded tags, else the extracted node with children from
the element children at `depth + 1`. -/
def extractElement (e : DomNode) (depth maxDepth : Nat) :
    Option ExtractedNode :=
  match e with
  | .text _ => none
  | .elem tag attrs style rect children =>
    if depth > maxDepth then none
    else
      let tagName := lowerStr tag
      if extractorExcluded.contains tagName then none
      else
        let vis := isVisible style rect
        let box : Option BoundingBox :=
          if vis then some ⟨rect.x, rect.y, rect.width, rect.height⟩
          else none
        let txt := directText children
        some (.mk tagName attrs
          (if txt.length > 0 then some txt else none)
          (extractChildren children (depth + 1) maxDepth)
          vis false box)

/-- The loop over `element.children`: extract each child, keeping the
non-`null` results in order. (Text children yield `none`, matching the
element-only `children` collection of the source.) -/
def extractChildren : List DomNode → Nat → Nat → List ExtractedNode
  | [], _, _ => []
  | c :: cs, d, m =>
    match extractElement c d m with
    | some n => n :: extractChildren cs d m
    | none => extractChildren cs d m

end

/-- The whole-page result: the extracted body tree, or the literal
fallback object `{tag_name:'body', attributes:{}, children:[],
is_visible:false}` when no body exists. -/
inductive PageResult where
  | full (result : Option ExtractedNode)
  | fallback (tag_name : String) (attributes : List (String × String))
      (children : List ExtractedNode) (is_visible : Bool)
deriving Repr

/-- Top level of the extractor script: extract from `document.body`
(depth 0, maximum depth 10) or return the fallback object. -/
def extractPage : Option DomNode → PageResult
  | none => .fallback "body" [] [] false
  | some body => .full (extractElement body 0 10)

/-! ## Depth and node-collection helpers for the extractor claims -/

mutual

/-- Depth of a document node counting element levels only: a childless
element has depth 0. -/
def treeDepth : DomNode → Nat
  | .text _ => 0
  | .elem _ _ _ _ cs => treeDepthList cs

def treeDepthList : List DomNode → Nat
  | [] => 0
  | c :: cs =>
    match c with
    | .text _ => treeDepthList cs
    | .elem _ _ _ _ _ => max (treeDepth c + 1) (treeDepthList cs)

end

mutual

/-- Depth of an extracted node: a childless node has depth 0. -/
def outDepth : ExtractedNode → Nat
  | .mk _ _ _ cs _ _ _ => outDepthList cs

def outDepthList : List ExtractedNode → Nat
  | [] => 0
  | c :: cs => max (outDepth c + 1) (outDepthList cs)

end

mutual

/-- Every node of an extracted tree: the node and all its descendants. -/
def allOutNodes : ExtractedNode → List ExtractedNode
  | n@(.mk _ _ _ cs _ _ _) => n :: allOutNodesList cs

def allOutNodesList : List ExtractedNode → List ExtractedNode
  | [] => []
  | c :: cs => allOutNodes c ++ allOutNodesList cs

end

mutual

/-- No element anywhere in the document tree carries an excluded tag. -/
def noExcludedTag : DomNode → Bool
  | .text _ => true
  | .elem t _ _ _ cs =>
    !(extractorExcluded.contains (lowerStr t)) && noExcludedList cs

def noExcludedList : List DomNode → Bool
  | [] => true
  | c :: cs => noExcludedTag c && noExcludedList cs

end

/-! ## Markdown renderer -/

/-- Tags the renderer skips outright. -/
def rendererExcluded : List String :=
  ["script", "style", "noscript", "meta", "link", "iframe"]

/-- Element tags whose subtrees `getTextContent` skips. -/
def gtcSkip : List String := ["script", "style", "noscript"]

mutual

/-- Flattened text `getTextContent` of a subtree. For an element,
direct text children contribute their raw content, element children not
in the skip set contribute their own (trimmed) flattened text, with no
separator inserted; the concatenation is trimmed at the end. -/
def getTextContent : DomNode → String
  | .text s => jsTrim s
  | .elem _ _ _ _ cs => jsTrim (gtcChildren cs)

def gtcChildren : List DomNode → String
  | [] => ""
  | c :: rest =>
    (match c with
      | .text s => s
      | .elem t _ _ _ _ =>
        if gtcSkip.contains (lowerStr t) then "" else getTextContent c)
    ++ gtcChildren rest

end

mutual

/-- Raw `textContent` of a node: all descendant text, unfiltered and
untrimmed. -/
def textContent : DomNode → String
  | .text s => s
  | .elem _ _ _ _ cs => textContentList cs

def textContentList : List DomNode → String
  | [] => ""
  | c :: rest => textContent c ++ textContentList rest

end

mutual

/-- All element descendants of a node in document (pre-)order,
excluding the node itself (the search scope of `querySelectorAll`). -/
def descendantElems : DomNode → List DomNode
  | .text _ => []
  | .elem _ _ _ _ cs => descList cs

def descList : List DomNode → List DomNode
  | [] => []
  | c :: rest =>
    (match c with
      | .text _ => []
      | .elem _ _ _ _ _ => c :: descendantElems c)
    ++ descList rest

end

/-- All rows of a table (`querySelectorAll` with `tr`): every descendant table row. -/
def tableRows (table : DomNode) : List DomNode :=
  (descendantElems table).filter fun d => tagOf d == "tr"

/-- All cells of a row (`querySelectorAll` with `th, td`): every descendant cell. -/
def rowCells (row : DomNode) : List DomNode :=
  (descendantElems row).filter fun d => tagOf d == "th" || tagOf d == "td"

/-- Header presence (`querySelector` with `th` finds something): some descendant header cell
exists. -/
def hasHeader (table : DomNode) : Bool :=
  (descendantElems table).any fun d => tagOf d == "th"

/-- One rendered table row: cell texts joined as `| a | b |`. -/
def rowLine (row : DomNode) : String :=
  "| " ++ String.intercalate " | " ((rowCells row).map getTextContent)
    ++ " |\n"

/-- The header-separator row emitted after a header row: one `---` per
cell of that row. -/
def sepRow (row : DomNode) : String :=
  "| " ++ String.intercalate " | " ((rowCells row).map fun _ => "---")
    ++ " |\n"

/-- Table rendering `convertTable`: empty on zero rows, else each row's line in order,
with the separator appended right after the row at index 0 when the
table has a header cell anywhere. -/
def convertTable (table : DomNode) : String :=
  let rows := tableRows table
  if rows.isEmpty then ""
  else
    rows.enum.foldl
      (fun md p =>
        md ++ rowLine p.2
          ++ (if p.1 == 0 && hasHeader table then sepRow p.2 else ""))
      ""

/-- Splitting a character list at newline characters
(`String.prototype.split('\n')`). -/
def splitNl : List Char → List (List Char)
  | [] => [[]]
  | c :: rest =>
    let r := splitNl rest
    if c = '\n' then [] :: r
    else
      match r with
      | [] => [[c]]
      | h :: t => (c :: h) :: t

mutual

/-- The transform `htmlToMarkdown(element)`: the tag-driven Markdown rules.
`parent` carries the tag of `element.parentElement` when one exists
(consulted only by the inline-code rule). -/
def htmlToMarkdown (parent : Option String) (e : DomNode) : String :=
  match e with
  | .text s =>
    let t := jsTrim s
    if t.length > 0 then t ++ " " else ""
  | .elem tag attrs _ _ children =>
    let tagName := lowerStr tag
    if rendererExcluded.contains tagName then ""
    else if tagName == "h1" then "\n# " ++ getTextContent e ++ "\n\n"
    else if tagName == "h2" then "\n## " ++ getTextContent e ++ "\n\n"
    else if tagName == "h3" then "\n### " ++ getTextContent e ++ "\n\n"
    else if tagName == "h4" then "\n#### " ++ getTextContent e ++ "\n\n"
    else if tagName == "h5" then "\n##### " ++ getTextContent e ++ "\n\n"
    else if tagName == "h6" then "\n###### " ++ getTextContent e ++ "\n\n"
    else if tagName == "p" then getTextContent e ++ "\n\n"
    else if tagName == "br" then "\n"
    else if tagName == "hr" then "\n---\n\n"
    else if tagName == "strong" || tagName == "b" then
      "**" ++ getTextContent e ++ "**"
    else if tagName == "em" || tagName == "i" then
      "*" ++ getTextContent e ++ "*"
    else if tagName == "code" then
      if (match parent with
          | some p => lowerStr p == "pre"
          | none => false) then ""
      else "`" ++ getTextContent e ++ "`"
    else if tagName == "pre" then
      let codeElement :=
        ((descendantElems e).filter fun d => tagOf d == "code").head?
      let code :=
        match codeElement with
        | some c => textContent c
        | none => textContent e
      "\n```\n" ++ code ++ "\n```\n\n"
    else if tagName == "a" then
      "[" ++ getTextContent e ++ "](" ++ (attrs.lookup "href").getD ""
        ++ ")"
    else if tagName == "img" then
      "![" ++ (attrs.lookup "alt").getD "" ++ "]("
        ++ (attrs.lookup "src").getD "" ++ ")"
    else if tagName == "ul" || tagName == "ol" then
      let listItems := children.filter isElemNode
      let isOrdered := tagName == "ol"
      (listItems.enum.foldl
        (fun md p =>
          if tagOf p.2 == "li" then
            md ++ (if isOrdered then toString (p.1 + 1) ++ ". " else "- ")
              ++ getTextContent p.2 ++ "\n"
          else md)
        "") ++ "\n"
    else if tagName == "li" then ""
    else if tagName == "blockquote" then
      String.intercalate "\n"
        ((splitNl (getTextContent e).data).map
          fun l => "> " ++ (⟨l⟩ : String)) ++ "\n\n"
    else if tagName == "table" then convertTable e ++ "\n\n"
    else mdChildren tag children

/-- The generic child loop: render each child node (text and element
alike) with this element as parent and concatenate. -/
def mdChildren (ptag : String) : List DomNode → String
  | [] => ""
  | c :: rest => htmlToMarkdown (some ptag) c ++ mdChildren ptag rest

end

/-- One collapsed run of newlines: runs of three or more become exactly
two (`replace(/\n{3,}/g, '\n\n')`). -/
def emitRun (n : Nat) : List Char :=
  if n ≥ 3 then ['\n', '\n'] else List.replicate n '\n'

/-- Newline-run collapsing over a character list; `n` counts the pending
run of newlines. -/
def collapseGo : Nat → List Char → List Char
  | n, [] => emitRun n
  | n, c :: rest =>
    if c = '\n' then collapseGo (n + 1) rest
    else emitRun n ++ (c :: collapseGo 0 rest)

/-- Replacement of every newline run of three or more by exactly two. -/
def replaceNl (s : String) : String := ⟨collapseGo 0 s.data⟩

/-- The renderer's final content string: Markdown of the content root,
newline runs collapsed, then trimmed. -/
def renderContent (e : DomNode) : String :=
  jsTrim (replaceNl (htmlToMarkdown none e))

/-! ## Derived definitions used by the verification -/

/-- The pieces `getTextContent` concatenates for an element's child
list: raw content for text children, recursively flattened (trimmed)
text for element children outside the skip set. -/
def flattenPieces : List DomNode → List String
  | [] => []
  | c :: rest =>
    (match c with
      | .text s => s
      | .elem t _ _ _ _ =>
        if gtcSkip.contains (lowerStr t) then "" else getTextContent c)
    :: flattenPieces rest

mutual

/-- Following the specification text for "flattened text": the content
of every descendant text node, collected in order, skipping the
subtrees of script/style/noscript elements. -/
def specTextPieces : DomNode → List String
  | .text s => [s]
  | .elem t _ _ _ cs =>
    if gtcSkip.contains (lowerStr t) then [] else specTextPiecesList cs

def specTextPiecesList : List DomNode → List String
  | [] => []
  | c :: rest => specTextPieces c ++ specTextPiecesList rest

end

/-- The specification's description of flattened text: each descendant
text node's content trimmed, the pieces joined by single spaces. -/
def specFlattenedText (e : DomNode) : String :=
  String.intercalate " " ((specTextPieces e).map jsTrim)

/-- Every tag the renderer's dispatch names explicitly (excluded tags
and all specific rendering rules); any other tag falls through to the
generic child-concatenation rule. -/
def rendererKnown : List String :=
  ["script", "style", "noscript", "meta", "link", "iframe",
   "h1", "h2", "h3", "h4", "h5", "h6", "p", "br", "hr",
   "strong", "b", "em", "i", "code", "pre", "a", "img",
   "ul", "ol", "li", "blockquote", "table",
   "div", "article", "section", "main", "body"]

/-! ## Concrete fixture trees -/

/-- A visible computed style. -/
def st0 : ComputedStyle := ⟨"block", "visible", "1"⟩

/-- A non-degenerate rectangle. -/
def r0 : Rect := ⟨0, 0, 100, 20⟩

/-- The spec's worked example: `<h1>Title</h1><p>Hello <b>world</b></p>`
inside the body. -/
def fragC7 : DomNode :=
  .elem "body" [] st0 r0
    [.elem "h1" [] st0 r0 [.text "Title"],
     .elem "p" [] st0 r0
       [.text "Hello ", .elem "b" [] st0 r0 [.text "world"]]]

/-- The tree `<p><b>x</b><b>y</b></p>`: two adjacent element children with no
whitespace between their texts. -/
def pEx : DomNode :=
  .elem "p" [] st0 r0
    [.elem "b" [] st0 r0 [.text "x"], .elem "b" [] st0 r0 [.text "y"]]

/-- The tree `<ol><li>a</li><p>x</p><li>b</li></ol>`: an ordered list with a
non-li element between two items. -/
def olEx : DomNode :=
  .elem "ol" [] st0 r0
    [.elem "li" [] st0 r0 [.text "a"],
     .elem "p" [] st0 r0 [.text "x"],
     .elem "li" [] st0 r0 [.text "b"]]

/-- A table with no rows at all. -/
def tableEx0 : DomNode := .elem "table" [] st0 r0 []

/-- A header row `<tr><th>h</th><td>d</td></tr>`. -/
def trA : DomNode :=
  .elem "tr" [] st0 r0
    [.elem "th" [] st0 r0 [.text "h"], .elem "td" [] st0 r0 [.text "d"]]

/-- A data row `<tr><td>1</td><td>2</td></tr>`. -/
def trB : DomNode :=
  .elem "tr" [] st0 r0
    [.elem "td" [] st0 r0 [.text "1"], .elem "td" [] st0 r0 [.text "2"]]

/-- A two-row table whose first row contains a header cell. -/
def tableEx1 : DomNode := .elem "table" [] st0 r0 [trA, trB]

/-- A body whose only child is a script element. -/
def bodyEx : DomNode :=
  .elem "body" [] st0 r0 [.elem "script" [] st0 r0 []]

/-- The extracted node for `bodyEx`: the script subtree is gone. -/
def nodeBodyEx : ExtractedNode :=
  .mk "body" [] none [] true false (some ⟨0, 0, 100, 20⟩)

/-- A two-level tree with no excluded tags: `<div><span/></div>`. -/
def divEx : DomNode :=
  .elem "div" [] st0 r0 [.elem "span" [] st0 r0 []]

/-! ## Helper lemmas -/

theorem join_cons (a : String) (l : List String) :
    String.join (a :: l) = a ++ String.join l := by
  simp [String.join_eq, String.ext_iff]

theorem foldl_append_str {α : Type} (f : α → String) :
    ∀ (l : List α) (a : String),
      l.foldl (fun md x => md ++ f x) a = a ++ String.join (l.map f)
  | [], a => by simp [String.join, String.append_empty]
  | x :: xs, a => by
    simp only [List.foldl_cons, List.map_cons, join_cons]
    rw [foldl_append_str f xs (a ++ f x), String.append_assoc]

theorem gtcChildren_eq_join : ∀ l : List DomNode,
    gtcChildren l = String.join (flattenPieces l)
  | [] => by simp [gtcChildren, flattenPieces, String.join]
  | c :: rest => by
    simp only [gtcChildren, flattenPieces, join_cons,
      gtcChildren_eq_join rest]

theorem foldl_li : ∀ (l : List (Nat × DomNode)) (a : String),
    l.foldl
      (fun md q =>
        if tagOf q.2 = "li" then
          md ++ (toString (q.1 + 1) ++ ". ") ++ getTextContent q.2 ++ "\n"
        else md) a
    = a ++ String.join (l.map fun q =>
        if tagOf q.2 = "li" then
          toString (q.1 + 1) ++ ". " ++ getTextContent q.2 ++ "\n"
        else "")
  | [], a => by simp [String.join, String.append_empty]
  | q :: qs, a => by
    simp only [List.foldl_cons, List.map_cons, join_cons]
    by_cases h : tagOf q.2 = "li"
    · rw [if_pos h, if_pos h, foldl_li qs]
      simp [String.append_assoc]
    · rw [if_neg h, if_neg h, foldl_li qs, String.empty_append]

/-! ## Claim C4: flattened text -/

/-- C4 counterexample: in `<p><b>x</b><b>y</b></p>` the renderer's
flattened-text helper returns `"xy"`, while the claimed per-node
trimming with space-joining would give `"x y"`; the claim fails on this
input. -/
theorem getTextContent_flatten_cex :
    getTextContent pEx = "xy" ∧ specFlattenedText pEx = "x y"
      ∧ getTextContent pEx ≠ specFlattenedText pEx :=
  ⟨rfl, rfl, by decide⟩

/-- C4 amended: for an element, the flattened-text helper returns the
trim of the concatenation, with no separator inserted, of one piece per
child: a text child's raw content, an element child's own flattened
(trimmed) text, and the empty string for script/style/noscript element
children. -/
theorem getTextContent_flatten_amended :
    ∀ (t : String) (a : List (String × String)) (s : ComputedStyle)
      (r : Rect) (c : List DomNode),
      getTextContent (.elem t a s r c)
        = jsTrim (String.join (flattenPieces c)) := by
  intro t a s r c
  simp [getTextContent, gtcChildren_eq_join]

/-! ## Claim C7: the worked rendering example -/

/-- C7 counterexample: on `<h1>Title</h1><p>Hello <b>world</b></p>`
neither the raw transform nor the final cleaned content equals the
claimed string `"# Title\n\nHello world\n\n"`. -/
theorem render_example_cex :
    htmlToMarkdown none fragC7 ≠ "# Title\n\nHello world\n\n"
      ∧ renderContent fragC7 ≠ "# Title\n\nHello world\n\n" :=
  ⟨by decide, by decide⟩

/-- C7 amended: the fragment's raw transform is
`"\n# Title\n\nHello world\n\n"` (the h1 rule prepends a newline), and
after newline collapsing and trimming the renderer's content is
`"# Title\n\nHello world"`; the bold run is flattened to plain text. -/
theorem render_example_amended :
    htmlToMarkdown none fragC7 = "\n# Title\n\nHello world\n\n"
      ∧ renderContent fragC7 = "# Title\n\nHello world" :=
  ⟨rfl, rfl⟩

/-! ## Claim C8: missing-body fallback -/

/-- C8: the extractor returns exactly the minimal fallback node
`{tag_name:'body', attributes:{}, children:[], is_visible:false}` iff
no root (body) element exists. -/
theorem extract_fallback_no_body :
    ∀ b : Option DomNode,
      extractPage b = .fallback "body" [] [] false ↔ b = none := by
  intro b
  cases b with
  | none => simp [extractPage]
  | some body =>
    simp only [extractPage]
    exact iff_of_false (fun h => PageResult.noConfusion h)
      (fun h => Option.noConfusion h)

/-- C8 witness: on the absent-body input the fallback value is
produced. -/
theorem extract_fallback_no_body_witness :
    extractPage none = .fallback "body" [] [] false :=
  (extract_fallback_no_body none).mpr rfl

/-! ## Claim C6: zero-row tables -/

/-- C6 counterexample: on a table with zero rows the renderer's
contribution for the table element is the two-newline suffix, not the
empty string. -/
theorem table_zero_rows_cex :
    htmlToMarkdown none tableEx0 = "\n\n"
      ∧ htmlToMarkdown none tableEx0 ≠ "" :=
  ⟨rfl, by decide⟩

/-- C6 amended: on a table element with zero rows `convertTable`
returns the empty string, and the renderer's contribution for the
table element is exactly `"\n\n"` (the fixed blank-line suffix). -/
theorem table_zero_rows_amended :
    ∀ (t : String) (a : List (String × String)) (s : ComputedStyle)
      (r : Rect) (c : List DomNode) (p : Option String),
      lowerStr t = "table" → tableRows (.elem t a s r c) = [] →
      convertTable (.elem t a s r c) = ""
        ∧ htmlToMarkdown p (.elem t a s r c) = "\n\n" := by
  intro t a s r c p ht hrows
  have hconv : convertTable (.elem t a s r c) = "" := by
    simp [convertTable, hrows]
  have hm : "table" ∉ rendererExcluded := by decide
  refine ⟨hconv, ?_⟩
  simp [htmlToMarkdown, ht, hm, hconv, String.empty_append]

/-- C6 witness: the amended statement at the concrete zero-row table. -/
theorem table_zero_rows_amended_witness :
    convertTable tableEx0 = "" ∧ htmlToMarkdown none tableEx0 = "\n\n" :=
  table_zero_rows_amended "table" [] st0 r0 [] none rfl rfl

/-! ## Claim C10: ordered-list numbering -/

/-- C10: an ordered list numbers each emitted `li` line by its 1-based
position among all element children (so a non-li element child emits
nothing but shifts subsequent numbering), as the concrete list with an
interleaved `<p>` shows. -/
theorem ol_numbering_element_children :
    (∀ (a : List (String × String)) (s : ComputedStyle) (r : Rect)
        (c : List DomNode) (p : Option String),
      htmlToMarkdown p (.elem "ol" a s r c)
        = String.join ((c.filter isElemNode).enum.map fun q =>
            if tagOf q.2 == "li" then
              toString (q.1 + 1) ++ ". " ++ getTextContent q.2 ++ "\n"
            else "") ++ "\n")
    ∧ htmlToMarkdown none olEx = "1. a\n3. b\n\n" := by
  constructor
  · intro a s r c p
    have h : lowerStr "ol" = "ol" := rfl
    have hm : "ol" ∉ rendererExcluded := by decide
    simp [htmlToMarkdown, h, hm, foldl_li, String.empty_append]
  · rfl

/-! ## Claim C1: depth bounding and exactness -/

theorem outDepthList_bound (d m : Nat) :
    ∀ L : List ExtractedNode, d ≤ m →
      (∀ c ∈ L, d + 1 + outDepth c ≤ m) → d + outDepthList L ≤ m
  | [] => by
    intro hd _
    simpa [outDepthList] using hd
  | c :: cs => by
    intro hd h
    have hc := h c (List.mem_cons_self c cs)
    have hcs := outDepthList_bound d m cs hd
      fun x hx => h x (List.mem_cons_of_mem _ hx)
    simp only [outDepthList]
    omega

mutual

theorem extractElement_depth_le : ∀ (e : DomNode) (d m : Nat)
    (n : ExtractedNode), extractElement e d m = some n →
    d + outDepth n ≤ m
  | .text _, d, m, n => by simp [extractElement]
  | .elem t a s r c, d, m, n => by
    intro h
    simp only [extractElement] at h
    by_cases h1 : d > m
    · rw [if_pos h1] at h
      exact absurd h (by simp)
    · rw [if_neg h1] at h
      by_cases h2 : extractorExcluded.contains (lowerStr t) = true
      · rw [if_pos h2] at h
        exact absurd h (by simp)
      · rw [if_neg h2] at h
        have hn := Option.some.inj h
        subst hn
        have hb : ∀ x ∈ extractChildren c (d + 1) m,
            d + 1 + outDepth x ≤ m :=
          fun x hx => extractChildren_depth_le c (d + 1) m x hx
        simpa [outDepth] using
          outDepthList_bound d m (extractChildren c (d + 1) m)
            (by omega) hb

theorem extractChildren_depth_le : ∀ (l : List DomNode) (d m : Nat)
    (x : ExtractedNode), x ∈ extractChildren l d m →
    d + outDepth x ≤ m
  | [], d, m, x => by simp [extractChildren]
  | c :: cs, d, m, x => by
    intro hx
    rcases hw : extractElement c d m with _ | k
    · simp only [extractChildren, hw] at hx
      exact extractChildren_depth_le cs d m x hx
    · simp only [extractChildren, hw] at hx
      rcases List.mem_cons.mp hx with h | h
      · subst h
        exact extractElement_depth_le c d m x hw
      · exact extractChildren_depth_le cs d m x h

end

mutual

theorem extractElement_depth_exact : ∀ (t : String)
    (a : List (String × String)) (s : ComputedStyle) (r : Rect)
    (c : List DomNode) (d m : Nat),
    noExcludedTag (.elem t a s r c) = true →
    d + treeDepthList c ≤ m →
    ∃ n, extractElement (.elem t a s r c) d m = some n
      ∧ outDepth n = treeDepthList c
  | t, a, s, r, c, d, m => by
    intro hex hdep
    simp only [noExcludedTag, Bool.and_eq_true] at hex
    have hcon : extractorExcluded.contains (lowerStr t) = false := by
      simpa using hex.1
    have hm : lowerStr t ∉ extractorExcluded := by simpa using hcon
    have hne : ¬ d > m := by omega
    have hch := extractChildren_depth_exact c (d + 1) m hex.2 (by omega)
    refine ⟨.mk (lowerStr t) a
      (if (directText c).length > 0 then some (directText c) else none)
      (extractChildren c (d + 1) m) (isVisible s r) false
      (if isVisible s r then some ⟨r.x, r.y, r.width, r.height⟩
       else none), ?_, ?_⟩
    · simp [extractElement, hne, hm]
    · simpa [outDepth] using hch
  termination_by t a s r c d m => sizeOf c + 1

theorem extractChildren_depth_exact : ∀ (l : List DomNode) (d m : Nat),
    noExcludedList l = true → d + treeDepthList l ≤ m + 1 →
    outDepthList (extractChildren l d m) = treeDepthList l
  | [], d, m => by
    intro _ _
    simp [extractChildren, outDepthList, treeDepthList]
  | .text s :: cs, d, m => by
    intro h1 h2
    simp only [noExcludedList, Bool.and_eq_true] at h1
    simp only [treeDepthList] at h2 ⊢
    simp only [extractChildren, extractElement]
    exact extractChildren_depth_exact cs d m h1.2 h2
  | .elem t a s r cc :: cs, d, m => by
    intro h1 h2
    simp only [noExcludedList, Bool.and_eq_true] at h1
    simp only [treeDepthList] at h2
    have hdd : treeDepth (.elem t a s r cc) = treeDepthList cc := by
      simp [treeDepth]
    have hd : d + treeDepthList cc ≤ m := by omega
    obtain ⟨n, hn, hdn⟩ :=
      extractElement_depth_exact t a s r cc d m h1.1 hd
    have htl := extractChildren_depth_exact cs d m h1.2 (by omega)
    simp only [extractChildren, hn, outDepthList, treeDepthList]
    rw [hdn, htl, hdd]
  termination_by l d m => sizeOf l

end

/-- C1 counterexample: `<body><script/></body>` has tree depth 1 (within
the default maximum 10), yet the extractor's output has depth 0 — the
output depth does not equal the true tree depth because the excluded
script subtree is dropped. -/
theorem extractor_depth_cex :
    (extractElement bodyEx 0 10).map outDepth ≠ some (treeDepth bodyEx)
      ∧ treeDepth bodyEx ≤ 10 :=
  ⟨by decide, by decide⟩

/-- C1 amended: every extracted tree from root depth 0 has depth at most
the maximum (so nodes past the limit are omitted with their whole
subtrees and nothing partial appears), and for element trees containing
no excluded tags whose depth is at most the maximum, the output exists
and its depth equals the true tree depth. -/
theorem extractor_depth_bounded_exact :
    (∀ (e : DomNode) (m : Nat) (n : ExtractedNode),
        extractElement e 0 m = some n → outDepth n ≤ m)
    ∧ (∀ (t : String) (a : List (String × String)) (s : ComputedStyle)
        (r : Rect) (c : List DomNode) (m : Nat),
        noExcludedTag (.elem t a s r c) = true →
        treeDepth (.elem t a s r c) ≤ m →
        ∃ n, extractElement (.elem t a s r c) 0 m = some n
          ∧ outDepth n = treeDepth (.elem t a s r c)) := by
  constructor
  · intro e m n h
    simpa using extractElement_depth_le e 0 m n h
  · intro t a s r c m hex hdep
    have h2 : 0 + treeDepthList c ≤ m := by
      simpa [treeDepth] using hdep
    obtain ⟨n, hn, hd⟩ := extractElement_depth_exact t a s r c 0 m hex h2
    exact ⟨n, hn, by simpa [treeDepth] using hd⟩

/-- C1 witness: the depth bound at the concrete body, and depth
exactness on the clean two-level `<div><span/></div>`. -/
theorem extractor_depth_bounded_exact_witness :
    outDepth nodeBodyEx ≤ 10
      ∧ ∃ n, extractElement divEx 0 10 = some n
          ∧ outDepth n = treeDepth divEx :=
  ⟨extractor_depth_bounded_exact.1 bodyEx 10 nodeBodyEx rfl,
   extractor_depth_bounded_exact.2 "div" [] st0 r0
     [.elem "span" [] st0 r0 []] 10 rfl (by decide)⟩

/-! ## Claim C2: excluded tags never appear -/

mutual

theorem extractElement_no_excluded : ∀ (e : DomNode) (d m : Nat)
    (n : ExtractedNode), extractElement e d m = some n →
    ∀ x ∈ allOutNodes n, extractorExcluded.contains x.tag_name = false
  | .text _, d, m, n => by simp [extractElement]
  | .elem t a s r c, d, m, n => by
    intro h x hx
    simp only [extractElement] at h
    by_cases h1 : d > m
    · rw [if_pos h1] at h
      exact absurd h (by simp)
    · rw [if_neg h1] at h
      by_cases h2 : extractorExcluded.contains (lowerStr t) = true
      · rw [if_pos h2] at h
        exact absurd h (by simp)
      · rw [if_neg h2] at h
        have hn := Option.some.inj h
        subst hn
        simp only [allOutNodes] at hx
        rcases List.mem_cons.mp hx with hx | hx
        · subst hx
          simpa [ExtractedNode.tag_name] using
            Bool.of_not_eq_true h2
        · exact extractChildren_no_excluded c (d + 1) m x hx

theorem extractChildren_no_excluded : ∀ (l : List DomNode) (d m : Nat),
    ∀ x ∈ allOutNodesList (extractChildren l d m),
      extractorExcluded.contains x.tag_name = false
  | [], d, m => by simp [extractChildren, allOutNodesList]
  | c :: cs, d, m => by
    intro x hx
    rcases hw : extractElement c d m with _ | k
    · simp only [extractChildren, hw] at hx
      exact extractChildren_no_excluded cs d m x hx
    · simp only [extractChildren, hw, allOutNodesList] at hx
      rcases List.mem_append.mp hx with h | h
      · exact extractElement_no_excluded c d m k hw x h
      · exact extractChildren_no_excluded cs d m x h

end

/-- C2: no node of the extractor's output carries an excluded tag, and
an element whose (lowercased) tag is excluded extracts to `none` — its
subtree is dropped whole, whatever its depth, visibility or content. -/
theorem extractor_excluded_never_output :
    (∀ (e : DomNode) (d m : Nat) (n : ExtractedNode),
        extractElement e d m = some n →
        ∀ x ∈ allOutNodes n, extractorExcluded.contains x.tag_name = false)
    ∧ (∀ (t : String) (a : List (String × String)) (s : ComputedStyle)
        (r : Rect) (c : List DomNode) (d m : Nat),
        extractorExcluded.contains (lowerStr t) = true →
        extractElement (.elem t a s r c) d m = none) := by
  constructor
  · exact fun e d m n h => extractElement_no_excluded e d m n h
  · intro t a s r c d m h
    have hm : lowerStr t ∈ extractorExcluded := by simpa using h
    simp [extractElement, hm]

/-- C2 witness: the extracted body node's tag is not excluded, and a
script element (with content below it) extracts to nothing. -/
theorem extractor_excluded_never_output_witness :
    extractorExcluded.contains nodeBodyEx.tag_name = false
      ∧ extractElement (.elem "script" [] st0 r0 [.text "x"]) 0 10
          = none :=
  ⟨extractor_excluded_never_output.1 bodyEx 0 10 nodeBodyEx rfl nodeBodyEx
    (by rw [show allOutNodes nodeBodyEx = [nodeBodyEx] from rfl]
        exact List.mem_singleton.mpr rfl),
   extractor_excluded_never_output.2 "script" [] st0 r0 [.text "x"] 0 10
     rfl⟩

/-! ## Claim C3: visible nodes carry positive boxes -/

theorem isVisible_pos {s : ComputedStyle} {r : Rect}
    (h : isVisible s r = true) : 0 < r.width ∧ 0 < r.height := by
  simp only [isVisible] at h
  by_cases hs : (s.display == "none" || s.visibility == "hidden"
      || s.opacity == "0") = true
  · rw [if_pos hs] at h
    exact absurd h (by simp)
  · rw [if_neg hs] at h
    simpa [Bool.and_eq_true, decide_eq_true_eq] using h

mutual

theorem extractElement_vis_box : ∀ (e : DomNode) (d m : Nat)
    (n : ExtractedNode), extractElement e d m = some n →
    ∀ x ∈ allOutNodes n,
      (x.is_visible = true →
        ∃ b, x.bounding_box = some b ∧ 0 < b.width ∧ 0 < b.height)
      ∧ (x.is_visible = false → x.bounding_box = none)
  | .text _, d, m, n => by simp [extractElement]
  | .elem t a s r c, d, m, n => by
    intro h x hx
    simp only [extractElement] at h
    by_cases h1 : d > m
    · rw [if_pos h1] at h
      exact absurd h (by simp)
    · rw [if_neg h1] at h
      by_cases h2 : extractorExcluded.contains (lowerStr t) = true
      · rw [if_pos h2] at h
        exact absurd h (by simp)
      · rw [if_neg h2] at h
        have hn := Option.some.inj h
        subst hn
        simp only [allOutNodes] at hx
        rcases List.mem_cons.mp hx with hx | hx
        · subst hx
          constructor
          · intro hv
            simp only [ExtractedNode.is_visible] at hv
            obtain ⟨hw, hh⟩ := isVisible_pos hv
            exact ⟨⟨r.x, r.y, r.width, r.height⟩,
              by simp [ExtractedNode.bounding_box, hv], hw, hh⟩
          · intro hv
            simp only [ExtractedNode.is_visible] at hv
            simp [ExtractedNode.bounding_box, hv]
        · exact extractChildren_vis_box c (d + 1) m x hx

theorem extractChildren_vis_box : ∀ (l : List DomNode) (d m : Nat),
    ∀ x ∈ allOutNodesList (extractChildren l d m),
      (x.is_visible = true →
        ∃ b, x.bounding_box = some b ∧ 0 < b.width ∧ 0 < b.height)
      ∧ (x.is_visible = false → x.bounding_box = none)
  | [], d, m => by simp [extractChildren, allOutNodesList]
  | c :: cs, d, m => by
    intro x hx
    rcases hw : extractElement c d m with _ | k
    · simp only [extractChildren, hw] at hx
      exact extractChildren_vis_box cs d m x hx
    · simp only [extractChildren, hw, allOutNodesList] at hx
      rcases List.mem_append.mp hx with h | h
      · exact extractElement_vis_box c d m k hw x h
      · exact extractChildren_vis_box cs d m x h

end

/-- C3: in every node of the extractor's output, `visible:true` implies
a bounding box with strictly positive width and height, and
`visible:false` implies no bounding box. -/
theorem extractor_visible_box :
    ∀ (e : DomNode) (d m : Nat) (n : ExtractedNode),
      extractElement e d m = some n →
      ∀ x ∈ allOutNodes n,
        (x.is_visible = true →
          ∃ b, x.bounding_box = some b ∧ 0 < b.width ∧ 0 < b.height)
        ∧ (x.is_visible = false → x.bounding_box = none) :=
  fun e d m n h => extractElement_vis_box e d m n h

/-- C3 witness: the invariant at the concrete extracted body node. -/
theorem extractor_visible_box_witness :
    (nodeBodyEx.is_visible = true →
      ∃ b, nodeBodyEx.bounding_box = some b
        ∧ 0 < b.width ∧ 0 < b.height)
    ∧ (nodeBodyEx.is_visible = false → nodeBodyEx.bounding_box = none) :=
  extractor_visible_box bodyEx 0 10 nodeBodyEx rfl nodeBodyEx
    (by rw [show allOutNodes nodeBodyEx = [nodeBodyEx] from rfl]
        exact List.mem_singleton.mpr rfl)

/-! ## Claim C5: the header-separator row -/

theorem map_enumFrom_rows (table : DomNode) :
    ∀ (rest : List DomNode) (k : Nat), k ≠ 0 →
      (List.enumFrom k rest).map
        (fun p => rowLine p.2
          ++ (if p.1 == 0 && hasHeader table then sepRow p.2 else ""))
      = rest.map rowLine
  | [], k, _ => rfl
  | x :: xs, k, hk => by
    rw [show List.enumFrom k (x :: xs)
        = (k, x) :: List.enumFrom (k + 1) xs from rfl,
      List.map_cons, List.map_cons,
      map_enumFrom_rows table xs (k + 1) (Nat.succ_ne_zero k)]
    congr 1
    have h0 : (k == 0 && hasHeader table) = false := by simp [hk]
    simp [h0]

/-- C5: on any table with at least one row, `convertTable` emits the
first row's line, then exactly one separator row iff the table contains
a header cell anywhere, then the remaining rows' lines — so the
separator appears exactly once, immediately after row 0, iff a header
cell exists, and never otherwise. -/
theorem convertTable_separator : ∀ (table r : DomNode)
    (rest : List DomNode), tableRows table = r :: rest →
    convertTable table
      = rowLine r ++ (if hasHeader table then sepRow r else "")
        ++ String.join (rest.map rowLine)
    ∧ (hasHeader table = true
        ↔ ∃ d ∈ descendantElems table, tagOf d = "th") := by
  intro table r rest hrows
  constructor
  · simp only [convertTable, hrows]
    rw [if_neg (by simp)]
    have henum : List.enum (r :: rest) = (0, r) :: List.enumFrom 1 rest :=
      rfl
    rw [henum, List.foldl_cons]
    have hfn : (fun (md : String) (p : Nat × DomNode) =>
        md ++ rowLine p.2
          ++ (if p.1 == 0 && hasHeader table then sepRow p.2 else ""))
      = fun (md : String) (p : Nat × DomNode) =>
          md ++ (rowLine p.2
            ++ (if p.1 == 0 && hasHeader table then sepRow p.2 else "")) := by
      funext md p
      rw [String.append_assoc]
    rw [hfn, foldl_append_str, map_enumFrom_rows table rest 1 one_ne_zero]
    simp [String.empty_append, String.append_assoc]
  · simp [hasHeader, List.any_eq_true, beq_iff_eq]

/-- C5 witness: the two-row table with one header cell gets exactly the
separator after its first row. -/
theorem convertTable_separator_witness :
    convertTable tableEx1
      = rowLine trA ++ (if hasHeader tableEx1 then sepRow trA else "")
        ++ String.join ([trB].map rowLine)
    ∧ (hasHeader tableEx1 = true
        ↔ ∃ d ∈ descendantElems tableEx1, tagOf d = "th") :=
  convertTable_separator tableEx1 trA [trB] rfl

/-! ## Claim C9: totality and unknown-tag fallthrough -/

/-- C9: the renderer is a total function — every finite tree yields a
string — and any element whose lowercased tag is outside the known
dispatch set renders as the plain concatenation of its rendered
children, with no markup of its own. -/
theorem renderer_total_unknown_tag :
    (∀ (p : Option String) (e : DomNode), ∃ s, htmlToMarkdown p e = s)
    ∧ (∀ (tag : String) (a : List (String × String)) (st : ComputedStyle)
        (r : Rect) (c : List DomNode) (p : Option String),
        lowerStr tag ∉ rendererKnown →
        htmlToMarkdown p (.elem tag a st r c) = mdChildren tag c) := by
  refine ⟨fun p e => ⟨_, rfl⟩, ?_⟩
  intro tag a st r c p hu
  simp only [rendererKnown, List.mem_cons, List.not_mem_nil, or_false,
    not_or] at hu
  obtain ⟨h1, h2, h3, h4, h5, h6, h7, h8, h9, h10, h11, h12, h13, h14,
    h15, h16, h17, h18, h19, h20, h21, h22, h23, h24, h25, h26, h27, h28,
    h29, h30, h31, h32, h33⟩ := hu
  have hex : lowerStr tag ∉ rendererExcluded := by
    simp [rendererExcluded, h1, h2, h3, h4, h5, h6]
  simp [htmlToMarkdown, hex, h7, h8, h9, h10, h11, h12, h13, h14, h15,
    h16, h17, h18, h19, h20, h21, h22, h23, h24, h25, h26, h27, h28, h29,
    h30, h31, h32, h33]

/-- C9 witness: an unknown tag renders as its children's concatenation. -/
theorem renderer_total_unknown_tag_witness :
    htmlToMarkdown none (.elem "custom" [] st0 r0 [.text "hi"])
      = mdChildren "custom" [.text "hi"] :=
  renderer_total_unknown_tag.2 "custom" [] st0 r0 [.text "hi"] none
    (by decide)
